import Mathlib

/-!
# ElectroChain — `static/js/main.js`

A shallow embedding of the page script `src/static/js/main.js`:

* the ready callback (tooltip activation, the five-second alert timer, the
  delete-confirmation click handler) as explicit state passing over a `Page`;
* `formatDate` and `formatCurrency` as functions over a `Host`.

The browser, jQuery, Bootstrap and `Intl` are not part of the repository; the
definitions that stand for them say so in their doc comments.
-/

namespace ElectroChain

/-! ## Document model -/

/-- Click handlers this script registers. -/
inductive Handler where
  | confirmDelete
  deriving DecidableEq, Repr

/-- A DOM element, reduced to what the script reads or writes: its attributes,
its class list, whether it is displayed, and its click listeners. -/
structure Element where
  attrs : List (String × String)
  classes : List String
  hidden : Bool
  clickHandlers : List Handler
  deriving DecidableEq, Repr

/-- The selectors the script uses: `[name="value"]` and `.name`. -/
inductive Selector where
  | attrEquals (name value : String)
  | hasClass (name : String)
  deriving DecidableEq, Repr

/-- The DOM call `element.getAttribute(name)`. -/
def Element.getAttribute (e : Element) (name : String) : Option String :=
  (e.attrs.find? (fun kv => kv.1 == name)).map Prod.snd

/-- Whether an element matches a selector. -/
def Selector.selects : Selector → Element → Bool
  | .attrEquals name value, e => e.getAttribute name == some value
  | .hasClass name, e => e.classes.contains name

/-- Modelled from the spec: the browser's `document.querySelectorAll(sel)` and
jQuery's `$(sel)` (neither is part of the repository): the matching elements of
the document, in document order. The document is the list of its elements in
document order. -/
def querySelectorAll (doc : List Element) (sel : Selector) : List Element :=
  doc.filter sel.selects

/-- The selector `'[data-bs-toggle="tooltip"]'` (main.js line 5). -/
def tooltipSelector : Selector := .attrEquals "data-bs-toggle" "tooltip"

/-- The selector `'.alert'` (main.js line 12). -/
def alertSelector : Selector := .hasClass "alert"

/-- The selector `'.confirm-delete'` (main.js line 16). -/
def confirmDeleteSelector : Selector := .hasClass "confirm-delete"

/-- Modelled from the spec: Bootstrap's tooltip widget (not part of the
repository), "a tooltip-widget constructor taking an element and producing an
interactive handle": `new bootstrap.Tooltip(el)` is a handle bound to `el`. -/
structure Tooltip where
  element : Element
  deriving DecidableEq, Repr

/-- Timer callbacks this script schedules. -/
inductive Callback where
  | fadeAlerts
  deriving DecidableEq, Repr

/-- A pending `setTimeout` entry: the time at which it becomes due and its
callback. -/
structure Timer where
  due : Nat
  callback : Callback
  deriving DecidableEq, Repr

/-- The state of a loaded page: the document, the clock in milliseconds, the
pending timers, the log of timers that fired (with the time of firing), the
tooltip widgets instantiated so far and the confirmation prompts shown so far. -/
structure Page where
  dom : List Element
  now : Nat
  timers : List Timer
  fired : List (Nat × Timer)
  tooltips : List Tooltip
  prompts : List String
  deriving DecidableEq, Repr

/-- Modelled from the spec: jQuery's `$(sel).fadeOut('slow')` (not part of the
repository), a "visual hide, not DOM removal": every matched element ends up
not displayed and stays in the document; the animation is reduced to its end
state. -/
def fadeOut (doc : List Element) (sel : Selector) : List Element :=
  doc.map (fun e => if sel.selects e then { e with hidden := true } else e)

/-- Modelled from the spec: jQuery's `$(sel).on('click', h)` (not part of the
repository), called as the script calls it, without a delegation selector: `h`
is bound to each element matched at the time of the call. -/
def onClick (doc : List Element) (sel : Selector) (h : Handler) : List Element :=
  doc.map (fun e => if sel.selects e then { e with clickHandlers := e.clickHandlers ++ [h] } else e)

/-- Modelled from the spec: the browser's `setTimeout(cb, delay)` (not part of
the repository): one more pending timer, due `delay` ms from now. -/
def setTimeout (p : Page) (cb : Callback) (delay : Nat) : Page :=
  { p with timers := p.timers ++ [⟨p.now + delay, cb⟩] }

/-- Lines 5–8 of main.js: `tooltipTriggerList.map(el => new bootstrap.Tooltip(el))`
over `[].slice.call(document.querySelectorAll('[data-bs-toggle="tooltip"]'))`. -/
def tooltipActivation (doc : List Element) : List Tooltip :=
  let tooltipTriggerList := querySelectorAll doc tooltipSelector
  tooltipTriggerList.map (fun tooltipTriggerEl => Tooltip.mk tooltipTriggerEl)

/-- The `$(document).ready` callback (main.js lines 3–21). -/
def ready (p : Page) : Page :=
  let tooltipList := tooltipActivation p.dom
  let p1 : Page := { p with tooltips := p.tooltips ++ tooltipList }
  let p2 : Page := setTimeout p1 .fadeAlerts 5000
  { p2 with dom := onClick p2.dom confirmDeleteSelector .confirmDelete }

/-- The body of a timer callback; `fadeAlerts` is main.js line 12. -/
def Callback.run : Callback → Page → Page
  | .fadeAlerts, p => { p with dom := fadeOut p.dom alertSelector }

/-- Modelled from the spec: the browser's timer queue (not part of the
repository): every pending timer that is due runs, in scheduling order, and is
no longer pending afterwards; each firing is logged with its time. -/
def fireDue (p : Page) : Page :=
  let due := p.timers.filter (fun t => decide (t.due ≤ p.now))
  let rest := p.timers.filter (fun t => !decide (t.due ≤ p.now))
  due.foldl (fun q t => t.callback.run { q with fired := q.fired ++ [(p.now, t)] })
    { p with timers := rest }

/-- Time passes: the clock advances by `ms` and the due timers fire. -/
def elapse (p : Page) (ms : Nat) : Page :=
  fireDue { p with now := p.now + ms }

/-- A click event, reduced to its default-action flag and the number of
`preventDefault` calls made on it. -/
structure Event where
  defaultPrevented : Bool
  preventDefaultCalls : Nat
  deriving DecidableEq, Repr

/-- A freshly dispatched click: default action not prevented. -/
def Event.click : Event := ⟨false, 0⟩

/-- Modelled from the spec: the event method `e.preventDefault()` (not part of
the repository): the default action is suppressed. -/
def Event.preventDefault (e : Event) : Event :=
  { e with defaultPrevented := true, preventDefaultCalls := e.preventDefaultCalls + 1 }

/-- The message of the confirmation prompt (main.js line 17). -/
def confirmMessage : String := "Вы уверены, что хотите удалить этот элемент?"

/-- Modelled from the spec: the browser's `confirm(message)` (not part of the
repository), a synchronous yes/no prompt: the prompt is shown and the user
answers; `user n` is the answer given to the `n`-th prompt of the page. -/
def confirm (user : Nat → Bool) (p : Page) (message : String) : Bool × Page :=
  (user p.prompts.length, { p with prompts := p.prompts ++ [message] })

/-- The click handler of main.js lines 16–20:
`if (!confirm('…')) { e.preventDefault(); }`. -/
def confirmDeleteHandler (user : Nat → Bool) (p : Page) (e : Event) : Page × Event :=
  let r := confirm user p confirmMessage
  if !r.1 then (r.2, e.preventDefault) else (r.2, e)

/-- Run a registered handler. -/
def Handler.run (user : Nat → Bool) : Handler → Page × Event → Page × Event
  | .confirmDelete, st => confirmDeleteHandler user st.1 st.2

/-- Run a list of click listeners on a fresh click event. -/
def dispatch (user : Nat → Bool) (p : Page) (hs : List Handler) : Page × Event :=
  hs.foldl (fun st h => h.run user st) (p, Event.click)

/-- Modelled from the spec: event dispatch (not part of the repository) for a
click on the `i`-th element of the document: its click listeners run in
registration order on a fresh event. Propagation to ancestors is not modelled. -/
def click (user : Nat → Bool) (p : Page) (i : Nat) : Page × Event :=
  match p.dom.get? i with
  | none => (p, Event.click)
  | some el => dispatch user p el.clickHandlers

/-- What can happen to a page after the ready callback has run: time passes,
the page's other code inserts an element, the user clicks an element. -/
inductive Step where
  | elapse (ms : Nat)
  | insert (i : Nat) (e : Element)  -- `e` becomes the element before position `i`
  | click (i : Nat) (user : Nat → Bool)

/-- One step of the page. -/
def Step.apply : Step → Page → Page
  | .elapse ms, p => ElectroChain.elapse p ms
  | .insert i e, p => { p with dom := p.dom.take i ++ e :: p.dom.drop i }
  | .click i user, p => (ElectroChain.click user p i).1

/-- A sequence of steps, left to right. -/
def run (steps : List Step) (p : Page) : Page :=
  steps.foldl (fun q s => s.apply q) p

/-- Where the element at position `i` of `p` stands after the step: an
insertion at or before its position moves it one position on. -/
def Step.track (s : Step) (p : Page) (i : Nat) : Nat :=
  match s with
  | .insert j _ => if min j p.dom.length ≤ i then i + 1 else i
  | _ => i

/-- Where the element at position `i` of `p` stands after the steps. -/
def track : List Step → Page → Nat → Nat
  | [], _, i => i
  | s :: steps, p, i => track steps (s.apply p) (s.track p i)


/-! ## Host platform: `Date` and `Intl`

`formatDate` and `formatCurrency` only call into the platform. The platform is
modelled after ECMA-262 (the `Date` constructor) and ECMA-402 with the CLDR
data of the Russian locale (the formatters); what the model does not describe
is a field of `Host`. -/

/-- Exceptions a platform call can raise. -/
inductive JSError where
  | rangeError
  | typeError
  deriving DecidableEq, Repr

/-- Options bag of `Intl.DateTimeFormat`, reduced to the properties the script
sets; `none` is `undefined`. -/
structure DateTimeFormatOptions where
  day : Option String
  month : Option String
  year : Option String
  hour : Option String
  minute : Option String
  deriving DecidableEq, Repr

/-- Options bag of `Intl.NumberFormat`, reduced to the properties the script
sets and the one it leaves to its default; `none` is `undefined`. -/
structure NumberFormatOptions where
  style : Option String
  currency : Option String
  minimumFractionDigits : Option Nat
  maximumFractionDigits : Option Nat
  deriving DecidableEq, Repr

/-- A resolved `Intl.NumberFormat` object. -/
structure NumberFormat where
  locale : String
  style : String
  currency : Option String
  minimumFractionDigits : Nat
  maximumFractionDigits : Nat
  deriving DecidableEq, Repr

/-- A finite Number: `(-1)^negative * mantissa * 2^exponent`. Every finite
IEEE-754 double has this form (`mantissa < 2^53`, `-1074 ≤ exponent ≤ 971`);
`negative` with `mantissa = 0` is `-0`. -/
structure FiniteNumber where
  negative : Bool
  mantissa : Nat
  exponent : Int
  deriving DecidableEq, Repr

/-- The host the script runs on. Ambient state: the time zone, as a fixed
offset of local time from UTC in minutes (zone transitions are not modelled),
and the clock. Implementation-defined behaviour: the fallback date parser for
strings outside the ISO format, the formatters for locales and option sets
other than the ones the script uses, and the minor units of currencies other
than the ruble. -/
structure Host where
  tzOffsetMin : Int
  tz_bound : -1440 < tzOffsetMin ∧ tzOffsetMin < 1440
  clock : Int
  legacyParse : String → Option Int
  otherDateTimeFormat : String → DateTimeFormatOptions → Int → String
  otherNumberFormat : NumberFormat → FiniteNumber → String
  minorUnits : String → Nat

/-! ### Calendar arithmetic (ECMA-262, 21.4.1) -/

/-- Milliseconds per day. -/
def msPerDay : Int := 86400000

/-- ECMA-262 `DayFromYear(y)`: the day number of 1 January of year `y`. -/
def dayFromYear (y : Int) : Int :=
  365 * (y - 1970) + (y - 1969) / 4 - (y - 1901) / 100 + (y - 1601) / 400

/-- ECMA-262 leap-year rule. -/
def inLeapYear (y : Int) : Bool :=
  y % 4 == 0 && (y % 100 != 0 || y % 400 == 0)

/-- Number of days of month `m` (1-based) in year `y`. -/
def daysInMonth (y : Int) (m : Nat) : Nat :=
  if m = 2 then (if inLeapYear y then 29 else 28)
  else if m = 4 ∨ m = 6 ∨ m = 9 ∨ m = 11 then 30
  else 31

/-- Days of the year before the first of month `m` (1-based), as in the table
of ECMA-262 `MonthFromTime`. -/
def daysBeforeMonth (y : Int) (m : Nat) : Nat :=
  let leap := if inLeapYear y then 1 else 0
  match m with
  | 1 => 0
  | 2 => 31
  | 3 => 59 + leap
  | 4 => 90 + leap
  | 5 => 120 + leap
  | 6 => 151 + leap
  | 7 => 181 + leap
  | 8 => 212 + leap
  | 9 => 243 + leap
  | 10 => 273 + leap
  | 11 => 304 + leap
  | _ => 334 + leap

/-- ECMA-262 `MakeDay` for in-range month and day: the day number of a date. -/
def makeDay (y : Int) (m d : Nat) : Int :=
  dayFromYear y + (daysBeforeMonth y m : Int) + (d : Int) - 1

/-- ECMA-262 `MakeTime`: milliseconds within the day. -/
def makeTime (hour minute second ms : Nat) : Int :=
  (hour : Int) * 3600000 + (minute : Int) * 60000 + (second : Int) * 1000 + (ms : Int)

/-- ECMA-262 `TimeClip`: time values beyond ±8.64e15 ms are NaN (`none`). -/
def timeClip (t : Int) : Option Int :=
  if t.natAbs ≤ 8640000000000000 then some t else none

/-- The calendar date of a day number: ECMA-262 `YearFromTime`, `MonthFromTime`
and `DateFromTime`, computed over 400-, 100-, 4- and 1-year cycles of years
that start on 1 March. Returns year, month (1–12) and day (1–31). -/
def civilFromDays (z : Int) : Int × Nat × Nat :=
  let z0 := z + 719468
  let era := z0 / 146097
  let doe := (z0 % 146097).toNat
  let n100 := min (doe / 36524) 3
  let r1 := doe - n100 * 36524
  let n4 := r1 / 1461
  let r2 := r1 % 1461
  let n1 := min (r2 / 365) 3
  let doy := r2 - n1 * 365
  let yoe := n100 * 100 + n4 * 4 + n1
  let mp := (5 * doy + 2) / 153
  let d := doy - (153 * mp + 2) / 5 + 1
  let m := if mp < 10 then mp + 3 else mp - 9
  (era * 400 + (yoe : Int) + (if m ≤ 2 then 1 else 0), m, d)

/-- The fields of a time value that the formatter prints. -/
structure DateFields where
  year : Int
  month : Nat
  day : Nat
  hour : Nat
  minute : Nat
  deriving DecidableEq, Repr

/-- ECMA-262 `LocalTime` followed by the field extraction: the local calendar
fields of the time value `t` on host `h`. -/
def localFields (h : Host) (t : Int) : DateFields :=
  let localMs := t + h.tzOffsetMin * 60000
  let ymd := civilFromDays (localMs / msPerDay)
  let msInDay := (localMs % msPerDay).toNat
  { year := ymd.1, month := ymd.2.1, day := ymd.2.2,
    hour := msInDay / 3600000, minute := msInDay / 60000 % 60 }

/-! ### The `Date` constructor (ECMA-262, 21.4.1.32 and 21.4.3.2) -/

/-- Value of a decimal digit. -/
def digitValue (c : Char) : Option Nat :=
  if c.isDigit then some (c.toNat - 48) else none

/-- Read exactly `n` decimal digits off the front of the input. -/
def readDigits : Nat → List Char → Option (Nat × List Char)
  | 0, cs => some (0, cs)
  | _ + 1, [] => none
  | n + 1, c :: cs =>
    match digitValue c, readDigits n cs with
    | some d, some (v, rest) => some (d * 10 ^ n + v, rest)
    | _, _ => none

/-- A string in the Date Time String Format, split into its elements. -/
structure IsoDateTime where
  year : Nat
  month : Nat
  day : Nat
  time : Option (Nat × Nat × Nat × Nat)
  offset : Option Int
  deriving DecidableEq, Repr

/-- The date part: `YYYY`, `YYYY-MM` or `YYYY-MM-DD`; absent elements are `01`. -/
def parseDatePart (cs : List Char) : Option ((Nat × Nat × Nat) × List Char) :=
  match readDigits 4 cs with
  | none => none
  | some (y, '-' :: r1) =>
    match readDigits 2 r1 with
    | none => none
    | some (m, '-' :: r2) =>
      match readDigits 2 r2 with
      | none => none
      | some (d, r3) => some ((y, m, d), r3)
    | some (m, r2) => some ((y, m, 1), r2)
  | some (y, r1) => some ((y, 1, 1), r1)

/-- The time part after `T`: `HH:mm`, `HH:mm:ss` or `HH:mm:ss.sss`. -/
def parseTimePart (cs : List Char) : Option ((Nat × Nat × Nat × Nat) × List Char) :=
  match readDigits 2 cs with
  | some (hh, ':' :: r1) =>
    match readDigits 2 r1 with
    | none => none
    | some (mm, ':' :: r2) =>
      match readDigits 2 r2 with
      | none => none
      | some (ss, '.' :: r3) =>
        match readDigits 3 r3 with
        | none => none
        | some (ms, r4) => some ((hh, mm, ss, ms), r4)
      | some (ss, r3) => some ((hh, mm, ss, 0), r3)
    | some (mm, r2) => some ((hh, mm, 0, 0), r2)
  | _ => none

/-- The UTC offset that ends a date-time: nothing, `Z`, `+HH:mm` or `-HH:mm`;
the result is the offset in minutes when one is written. -/
def parseOffsetPart (cs : List Char) : Option (Option Int) :=
  match cs with
  | [] => some none
  | ['Z'] => some (some 0)
  | sign :: rest =>
    if sign = '+' ∨ sign = '-' then
      match readDigits 2 rest with
      | some (hh, ':' :: r1) =>
        match readDigits 2 r1 with
        | some (mm, []) =>
          if hh ≤ 23 ∧ mm ≤ 59 then
            some (some ((if sign = '-' then -1 else 1) * ((hh : Int) * 60 + (mm : Int))))
          else none
        | _ => none
      | _ => none
    else none

/-- Split a string of the Date Time String Format (four-digit years) into its
elements; `none` when the string does not have that format. -/
def parseIso (cs : List Char) : Option IsoDateTime :=
  match parseDatePart cs with
  | none => none
  | some (d, []) => some ⟨d.1, d.2.1, d.2.2, none, none⟩
  | some (d, 'T' :: rest) =>
    match parseTimePart rest with
    | none => none
    | some (t, rest2) =>
      match parseOffsetPart rest2 with
      | none => none
      | some off => some ⟨d.1, d.2.1, d.2.2, some t, off⟩
  | some _ => none

/-- Whether every element is in range: month 01–12, day 01 to the length of the
month, and a time of day from 00:00:00.000 to 24:00:00.000. -/
def IsoDateTime.legal (f : IsoDateTime) : Bool :=
  decide (1 ≤ f.month ∧ f.month ≤ 12) && decide (1 ≤ f.day ∧ f.day ≤ daysInMonth f.year f.month)
    && (match f.time with
        | none => true
        | some (hh, mm, ss, ms) =>
          (decide (hh ≤ 23) && decide (mm ≤ 59) && decide (ss ≤ 59))
            || (hh == 24 && mm == 0 && ss == 0 && ms == 0))

/-- The time value of a legal ISO string: with an offset it is that instant;
without one a date-only form is UTC and a date-time form is local time. -/
def IsoDateTime.timeValue (h : Host) (f : IsoDateTime) : Int :=
  let day := makeDay f.year f.month f.day
  match f.time with
  | none => day * msPerDay
  | some (hh, mm, ss, ms) =>
    let t := day * msPerDay + makeTime hh mm ss ms
    match f.offset with
    | some off => t - off * 60000
    | none => t - h.tzOffsetMin * 60000

/-- Modelled from the spec: the platform's date parser `Date.parse(s)` (not part
of the repository), after ECMA-262: strings of the Date Time String Format with
legal elements are interpreted as above; every other string is left to the
host's fallback parser. `none` is NaN. -/
def Date.parse (h : Host) (s : String) : Option Int :=
  match parseIso s.data with
  | some f => if f.legal then some (f.timeValue h) else h.legacyParse s
  | none => h.legacyParse s

/-- Modelled from the spec: the platform's `new Date(s)` for a string `s` (not
part of the repository), after ECMA-262: the time value of the new Date object,
`none` for an Invalid Date. -/
def Date.new (h : Host) (s : String) : Option Int :=
  match Date.parse h s with
  | none => none
  | some t => timeClip t

/-! ### `Intl`: locale tags and option validation (ECMA-402) -/

/-- Split a tag into its subtags at the hyphens. -/
def splitHyphen : List Char → List (List Char)
  | [] => [[]]
  | c :: cs =>
    match splitHyphen cs with
    | [] => [[c]]
    | g :: gs => if c = '-' then [] :: g :: gs else (c :: g) :: gs

/-- A language subtag: 2–3 or 5–8 letters. -/
def isLanguageSubtag (t : List Char) : Bool :=
  t.all Char.isAlpha && (t.length == 2 || t.length == 3 || (5 ≤ t.length && t.length ≤ 8))

/-- A script subtag: 4 letters. -/
def isScriptSubtag (t : List Char) : Bool :=
  t.all Char.isAlpha && t.length == 4

/-- A region subtag: 2 letters or 3 digits. -/
def isRegionSubtag (t : List Char) : Bool :=
  (t.all Char.isAlpha && t.length == 2) || (t.all Char.isDigit && t.length == 3)

/-- A variant subtag: 5–8 letters or digits, or a digit followed by three. -/
def isVariantSubtag (t : List Char) : Bool :=
  t.all Char.isAlphanum
    && ((5 ≤ t.length && t.length ≤ 8) || (t.length == 4 && (t.head?.map Char.isDigit).getD false))

/-- ECMA-402 `IsStructurallyValidLanguageTag` for tags of the form
`language[-script][-region](-variant)*`; tags with extension or private-use
sequences are outside the model. -/
def isStructurallyValidLanguageTag (tag : List Char) : Bool :=
  match splitHyphen tag with
  | [] => false
  | lang :: rest =>
    let rest1 := match rest with
      | s :: r => if isScriptSubtag s then r else rest
      | [] => rest
    let rest2 := match rest1 with
      | s :: r => if isRegionSubtag s then r else rest1
      | [] => rest1
    isLanguageSubtag lang && rest2.all isVariantSubtag

/-- ECMA-402 `GetOption` check: a given value must be one of the allowed ones. -/
def allowedValue (v : Option String) (values : List String) : Bool :=
  match v with
  | none => true
  | some s => values.contains s

/-- Whether every date-time component option has an allowed value; otherwise
the `Intl.DateTimeFormat` constructor throws a RangeError. -/
def DateTimeFormatOptions.valid (o : DateTimeFormatOptions) : Bool :=
  allowedValue o.year ["2-digit", "numeric"]
    && allowedValue o.month ["2-digit", "numeric", "narrow", "short", "long"]
    && allowedValue o.day ["2-digit", "numeric"]
    && allowedValue o.hour ["2-digit", "numeric"]
    && allowedValue o.minute ["2-digit", "numeric"]

/-- ECMA-402 `ToDateTimeOptions(options, "date", "date")`, as used by
`toLocaleDateString`: numeric year, month and day are filled in only when no
date component is requested; requested time components are kept. -/
def toDateOptions (o : DateTimeFormatOptions) : DateTimeFormatOptions :=
  if o.year.isNone && o.month.isNone && o.day.isNone then
    { o with year := some "numeric", month := some "numeric", day := some "numeric" }
  else o

/-! ### `Intl`: Russian date and currency rendering (CLDR `ru`) -/

/-- Decimal digits of a natural number, most significant first. -/
def decimal (n : Nat) : List Char := Nat.toDigits 10 n

/-- A `2-digit` field: zero-padded to two digits. -/
def twoDigit (n : Nat) : List Char :=
  if n < 10 then '0' :: decimal n else decimal n

/-- The year of its era for a proleptic Gregorian year (year 0 is 1 BC). -/
def yearOfEra (y : Int) : Nat :=
  if 0 < y then y.toNat else (1 - y).toNat

/-- Modelled from the spec: the platform's `ru-RU` rendering of a date with
two-digit day and month, numeric year, two-digit hour and minute (`Intl` is not
part of the repository). It is the CLDR pattern `dd.MM.y, HH:mm`, which is
"05.03.2024" followed by a time portion "14:30" on the spec's example. -/
def ruDateTime (f : DateFields) : String :=
  String.mk (twoDigit f.day ++ ['.'] ++ twoDigit f.month ++ ['.'] ++ decimal (yearOfEra f.year)
    ++ [',', ' '] ++ twoDigit f.hour ++ [':'] ++ twoDigit f.minute)

/-- Modelled from the spec: the platform's text for an Invalid Date (not part of
the repository), the "Invalid Date" representation. -/
def invalidDateText : String := "Invalid Date"

/-- The options `formatDate` passes (main.js lines 26–32). -/
def formatDateOptions : DateTimeFormatOptions :=
  { day := some "2-digit", month := some "2-digit", year := some "numeric",
    hour := some "2-digit", minute := some "2-digit" }

/-- Modelled from the spec: the platform's `toLocaleDateString(locales, options)`
(not part of the repository), after ECMA-402: an Invalid Date yields its
"Invalid Date" text before the arguments are looked at; an ill-formed tag or
option value throws a RangeError; the locale and option set the script uses are
rendered by `ruDateTime`, any other by the host. -/
def Date.toLocaleDateString (h : Host) (date : Option Int) (locales : String)
    (options : DateTimeFormatOptions) : Except JSError String :=
  match date with
  | none => .ok invalidDateText
  | some t =>
    if !isStructurallyValidLanguageTag locales.data then .error .rangeError
    else if !options.valid then .error .rangeError
    else if locales = "ru-RU" ∧ toDateOptions options = formatDateOptions then
      .ok (ruDateTime (localFields h t))
    else .ok (h.otherDateTimeFormat locales (toDateOptions options) t)

/-- The function `formatDate(dateString)` (main.js lines 24–34). -/
def formatDate (h : Host) (dateString : String) : Except JSError String :=
  let date := Date.new h dateString
  Date.toLocaleDateString h date "ru-RU"
    { day := some "2-digit", month := some "2-digit", year := some "numeric",
      hour := some "2-digit", minute := some "2-digit" }

/-- ECMA-402 `IsWellFormedCurrencyCode`: three letters. -/
def isWellFormedCurrencyCode (c : String) : Bool :=
  c.data.length == 3 && c.data.all Char.isAlpha

/-- ECMA-402 `CurrencyDigits`: the ISO 4217 minor unit, 2 for the ruble. -/
def currencyDigits (h : Host) (c : String) : Nat :=
  if c = "RUB" then 2 else h.minorUnits c

/-- Modelled from the spec: the platform's `new Intl.NumberFormat(locales,
options)` (not part of the repository), after ECMA-402: the tag, the style and
the currency code are validated and the fraction digit settings resolved as in
`SetNumberFormatDigitOptions`. -/
def NumberFormat.new (h : Host) (locales : String) (o : NumberFormatOptions) :
    Except JSError NumberFormat :=
  if !isStructurallyValidLanguageTag locales.data then .error .rangeError
  else
    let style := o.style.getD "decimal"
    if !(["decimal", "percent", "currency", "unit"].contains style) then .error .rangeError
    else if (o.currency.map isWellFormedCurrencyCode).getD true = false then .error .rangeError
    else if style = "currency" ∧ o.currency = none then .error .typeError
    else if style = "unit" then .error .typeError
    else
      let currency := o.currency.map (fun c => String.mk (c.data.map Char.toUpper))
      let cDigits := (currency.map (currencyDigits h)).getD 2
      let mnfdDefault := if style = "currency" then cDigits else 0
      let mxfdDefault := if style = "currency" then cDigits else if style = "percent" then 0 else 3
      if (o.minimumFractionDigits.map (fun n => decide (n ≤ 100))).getD true = false then
        .error .rangeError
      else if (o.maximumFractionDigits.map (fun n => decide (n ≤ 100))).getD true = false then
        .error .rangeError
      else
        match o.minimumFractionDigits, o.maximumFractionDigits with
        | none, none => .ok ⟨locales, style, currency, mnfdDefault, mxfdDefault⟩
        | none, some mx => .ok ⟨locales, style, currency, min mnfdDefault mx, mx⟩
        | some mn, none => .ok ⟨locales, style, currency, mn, max mxfdDefault mn⟩
        | some mn, some mx =>
          if mn > mx then .error .rangeError else .ok ⟨locales, style, currency, mn, mx⟩

/-- The magnitude of `x` times `10^k`, rounded to the nearest integer with ties
away from zero (ECMA-402 rounding mode `halfExpand`, the default). -/
def scaledRound (x : FiniteNumber) (k : Nat) : Nat :=
  match x.exponent with
  | .ofNat e => x.mantissa * 2 ^ e * 10 ^ k
  | .negSucc e => (x.mantissa * 10 ^ k * 2 + 2 ^ (e + 1)) / (2 * 2 ^ (e + 1))

/-- The last `k` decimal digits of `n`, zero-padded. -/
def lastDigits : Nat → Nat → List Char
  | 0, _ => []
  | k + 1, n => lastDigits k (n / 10) ++ [Nat.digitChar (n % 10)]

/-- Drop up to `n` leading zeros. -/
def dropZeros : Nat → List Char → List Char
  | n + 1, '0' :: rest => dropZeros n rest
  | _, l => l

/-- Drop trailing zeros of a fraction while more than `mnfd` digits remain. -/
def trimTrailingZeros (mnfd : Nat) (ds : List Char) : List Char :=
  (dropZeros (ds.length - mnfd) ds.reverse).reverse

/-- Cut a list into runs of three from the front; the last run has one to three
elements when the list is not empty. -/
def chunk3 : List Char → List (List Char)
  | a :: b :: c :: d :: rest => [a, b, c] :: chunk3 (d :: rest)
  | l => [l]

/-- The no-break space U+00A0, the grouping separator of the Russian locale,
also written between the amount and the currency sign. -/
def nbsp : Char := Char.ofNat 160

/-- The groups of three of an integer part, counted from the right. -/
def groupsOfThree (ds : List Char) : List (List Char) :=
  ((chunk3 ds.reverse).map List.reverse).reverse

/-- Modelled from the spec: the platform's `ru-RU` currency rendering for
rubles (`Intl` is not part of the repository): the CLDR pattern `#,##0.00 ¤`
with grouping in threes by a no-break space, a decimal comma, and the sign `₽`
after a no-break space, which is "1 234,50 ₽" and "0,00 ₽" on the spec's
examples. The fraction has `mxfd` digits, trailing zeros dropped down to
`mnfd`. -/
def ruCurrency (mnfd mxfd : Nat) (x : FiniteNumber) : String :=
  let scaled := scaledRound x mxfd
  let intDigits := decimal (scaled / 10 ^ mxfd)
  let fracDigits := trimTrailingZeros mnfd (lastDigits mxfd scaled)
  String.mk ((if x.negative then ['-'] else [])
    ++ List.intercalate [nbsp] (groupsOfThree intDigits)
    ++ (if fracDigits = [] then [] else ',' :: fracDigits)
    ++ [nbsp, '₽'])

/-- Modelled from the spec: the platform's `Intl.NumberFormat.prototype.format(x)`
(not part of the repository) for a finite Number: the ruble in the Russian
locale is rendered by `ruCurrency`, anything else by the host. -/
def NumberFormat.format (h : Host) (nf : NumberFormat) (x : FiniteNumber) : String :=
  if nf.locale = "ru-RU" ∧ nf.style = "currency" ∧ nf.currency = some "RUB" then
    ruCurrency nf.minimumFractionDigits nf.maximumFractionDigits x
  else h.otherNumberFormat nf x

/-- The function `formatCurrency(amount)` (main.js lines 37–43), for a finite
amount. -/
def formatCurrency (h : Host) (amount : FiniteNumber) : Except JSError String :=
  match NumberFormat.new h "ru-RU"
      { style := some "currency", currency := some "RUB",
        minimumFractionDigits := some 2, maximumFractionDigits := none } with
  | .error e => .error e
  | .ok nf => .ok (nf.format h amount)

/-! ### Sample hosts and values -/

/-- A host on UTC whose engine parses nothing but the ISO format. -/
def hostUTC : Host :=
  { tzOffsetMin := 0, tz_bound := by decide, clock := 0,
    legacyParse := fun _ => none,
    otherDateTimeFormat := fun _ _ _ => "",
    otherNumberFormat := fun _ _ => "",
    minorUnits := fun _ => 2 }

/-- The same host five hours west of UTC. -/
def hostEST : Host :=
  { hostUTC with tzOffsetMin := -300, tz_bound := by decide }

/-- The Number `1234.5`, which is `2469 * 2^(-1)`. -/
def amount1234_5 : FiniteNumber := ⟨false, 2469, -1⟩

/-- The Number `0`. -/
def amountZero : FiniteNumber := ⟨false, 0, 0⟩

/-! ## Lemmas on the document model -/

theorem fadeOut_length (doc : List Element) (sel : Selector) :
    (fadeOut doc sel).length = doc.length := by
  simp [fadeOut]

theorem onClick_length (doc : List Element) (sel : Selector) (h : Handler) :
    (onClick doc sel h).length = doc.length := by
  simp [onClick]

theorem fadeOut_eq_self_of_no_match (doc : List Element) (sel : Selector)
    (h : querySelectorAll doc sel = []) : fadeOut doc sel = doc := by
  induction doc with
  | nil => rfl
  | cons a l ih =>
    simp only [querySelectorAll, List.filter_cons] at h
    by_cases ha : sel.selects a = true
    · simp [ha] at h
    · simp only [ha, Bool.false_eq_true, if_false] at h
      simp only [fadeOut, List.map_cons, ha, Bool.false_eq_true, if_false]
      congr 1
      exact ih h

theorem onClick_eq_self_of_no_match (doc : List Element) (sel : Selector) (hd : Handler)
    (h : querySelectorAll doc sel = []) : onClick doc sel hd = doc := by
  induction doc with
  | nil => rfl
  | cons a l ih =>
    simp only [querySelectorAll, List.filter_cons] at h
    by_cases ha : sel.selects a = true
    · simp [ha] at h
    · simp only [ha, Bool.false_eq_true, if_false] at h
      simp only [onClick, List.map_cons, ha, Bool.false_eq_true, if_false]
      congr 1
      exact ih h

/-- Firing a list of timers: the pending list is untouched, each firing is
logged, and the document is faded once per firing. -/
theorem fire_foldl (now : Nat) (ts : List Timer) (q : Page) :
    let r := ts.foldl (fun q t => t.callback.run { q with fired := q.fired ++ [(now, t)] }) q
    r.timers = q.timers ∧ r.fired = q.fired ++ ts.map (fun t => (now, t))
      ∧ r.now = q.now ∧ r.tooltips = q.tooltips ∧ r.prompts = q.prompts
      ∧ r.dom = (fun d => fadeOut d alertSelector)^[ts.length] q.dom := by
  induction ts generalizing q with
  | nil => simp
  | cons t ts ih =>
    obtain ⟨due, cb⟩ := t
    cases cb
    simp only [List.foldl_cons, Callback.run, List.map_cons, List.length_cons,
      Function.iterate_succ, Function.comp_apply]
    have := ih { q with fired := q.fired ++ [(now, (⟨due, .fadeAlerts⟩ : Timer))],
                        dom := fadeOut q.dom alertSelector }
    simp only at this
    obtain ⟨h1, h2, h3, h4, h5, h6⟩ := this
    refine ⟨h1, ?_, h3, h4, h5, h6⟩
    simpa using h2

theorem fireDue_spec (p : Page) :
    (fireDue p).timers = p.timers.filter (fun t => !decide (t.due ≤ p.now))
      ∧ (fireDue p).fired
          = p.fired ++ (p.timers.filter (fun t => decide (t.due ≤ p.now))).map (fun t => (p.now, t))
      ∧ (fireDue p).now = p.now ∧ (fireDue p).tooltips = p.tooltips
      ∧ (fireDue p).prompts = p.prompts
      ∧ (fireDue p).dom = (fun d => fadeOut d alertSelector)^[
            (p.timers.filter (fun t => decide (t.due ≤ p.now))).length] p.dom := by
  have := fire_foldl p.now (p.timers.filter (fun t => decide (t.due ≤ p.now)))
    { p with timers := p.timers.filter (fun t => !decide (t.due ≤ p.now)) }
  simpa [fireDue] using this

theorem fadeOut_idem (doc : List Element) (sel : Selector) (n : Nat) :
    (fun d => fadeOut d sel)^[n + 1] doc = fadeOut doc sel := by
  induction n with
  | zero => rfl
  | succ n ih =>
    rw [Function.iterate_succ_apply', ih]
    simp only [fadeOut, List.map_map]
    apply List.map_congr_left
    intro e _
    cases sel with
    | attrEquals a v =>
      by_cases h : (Selector.attrEquals a v).selects e = true
      · simp [h, Selector.selects, Element.getAttribute] at *
        simp [h]
      · simp [h]
    | hasClass c =>
      by_cases h : (Selector.hasClass c).selects e = true
      · simp [h, Selector.selects] at *
        simp [h]
      · simp [h]

theorem dispatch_confirmDelete (user : Nat → Bool) (p : Page) :
    dispatch user p [Handler.confirmDelete]
      = ({ p with prompts := p.prompts ++ [confirmMessage] },
          if user p.prompts.length then Event.click else Event.click.preventDefault) := by
  cases h : user p.prompts.length <;>
    simp [dispatch, Handler.run, confirmDeleteHandler, confirm, h]

theorem get?_insert (l : List Element) (i : Nat) (e : Element) :
    (l.take i ++ e :: l.drop i).get? (min i l.length) = some e := by
  have h : (l.take i).length = min i l.length := List.length_take i l
  rw [List.get?_eq_getElem?, List.getElem?_append_right (by omega)]
  simp [h]

theorem handlers_foldl_page (user : Nat → Bool) (hs : List Handler) (st : Page × Event) :
    (hs.foldl (fun st h => h.run user st) st).1
      = { st.1 with prompts := st.1.prompts ++ List.replicate hs.length confirmMessage } := by
  induction hs generalizing st with
  | nil => simp
  | cons h hs ih =>
    cases h
    simp only [List.foldl_cons, ih, List.length_cons, List.replicate_succ]
    simp only [Handler.run, confirmDeleteHandler, confirm]
    split <;> simp

theorem click_page (user : Nat → Bool) (p : Page) (i : Nat) :
    ∃ n, (click user p i).1 = { p with prompts := p.prompts ++ List.replicate n confirmMessage } := by
  unfold click
  cases p.dom.get? i with
  | none => exact ⟨0, by simp⟩
  | some el => exact ⟨el.clickHandlers.length, handlers_foldl_page user _ _⟩

theorem run_nil (q : Page) : run [] q = q := rfl

theorem run_cons (s : Step) (steps : List Step) (q : Page) :
    run (s :: steps) q = run steps (s.apply q) := rfl

/-- A page with one pending `fadeAlerts` timer either keeps it pending or has
fired it, no earlier than its due time; a page with none pending keeps none. -/
theorem step_single_timer (s : Step) (q : Page) (T : Timer) (log : List (Nat × Timer)) :
    (q.timers = [T] ∧ q.fired = log →
      ((s.apply q).timers = [T] ∧ (s.apply q).fired = log)
        ∨ ((s.apply q).timers = [] ∧ ∃ t, T.due ≤ t ∧ (s.apply q).fired = log ++ [(t, T)]))
    ∧ (q.timers = [] → (s.apply q).timers = [] ∧ (s.apply q).fired = q.fired
        ∧ List.Sublist q.dom (s.apply q).dom) := by
  cases s with
  | elapse ms =>
    obtain ⟨h1, h2, -, -, -, h6⟩ := fireDue_spec { q with now := q.now + ms }
    simp only at h1 h2 h6
    simp only [Step.apply, elapse]
    refine ⟨?_, ?_⟩
    · rintro ⟨hT, hlog⟩
      rw [h1, h2, hT, hlog]
      by_cases hdue : T.due ≤ q.now + ms
      · right
        refine ⟨by simp [hdue], q.now + ms, hdue, by simp [hdue]⟩
      · left
        simp [hdue]
    · intro hT
      rw [h1, h2, h6, hT]
      simp
  | insert i e =>
    simp only [Step.apply]
    refine ⟨fun h => Or.inl h, fun h => ⟨h, trivial, ?_⟩⟩
    conv => lhs; rw [← List.take_append_drop i q.dom]
    exact List.Sublist.append (List.Sublist.refl _) (List.sublist_cons_self _ _)
  | click i user =>
    obtain ⟨n, hn⟩ := click_page user q i
    simp only [Step.apply, hn]
    exact ⟨fun h => Or.inl h, fun h => ⟨h, trivial, List.Sublist.refl _⟩⟩

theorem run_no_timers (steps : List Step) (q : Page) (h : q.timers = []) :
    (run steps q).timers = [] ∧ (run steps q).fired = q.fired
      ∧ List.Sublist q.dom (run steps q).dom := by
  induction steps generalizing q with
  | nil => exact ⟨h, rfl, List.Sublist.refl _⟩
  | cons s steps ih =>
    obtain ⟨h1, h2, h3⟩ := (step_single_timer s q ⟨0, .fadeAlerts⟩ []).2 h
    obtain ⟨k1, k2, k3⟩ := ih (s.apply q) h1
    rw [run_cons]
    exact ⟨k1, k2.trans h2, h3.trans k3⟩

theorem run_single_timer (steps : List Step) (q : Page) (T : Timer) (log : List (Nat × Timer))
    (hT : q.timers = [T]) (hlog : q.fired = log) :
    ((run steps q).timers = [T] ∧ (run steps q).fired = log)
      ∨ ((run steps q).timers = [] ∧ ∃ t, T.due ≤ t ∧ (run steps q).fired = log ++ [(t, T)]) := by
  induction steps generalizing q with
  | nil => exact Or.inl ⟨hT, hlog⟩
  | cons s steps ih =>
    rw [run_cons]
    rcases (step_single_timer s q T log).1 ⟨hT, hlog⟩ with ⟨a, b⟩ | ⟨a, t, ht, b⟩
    · exact ih _ a b
    · right
      obtain ⟨k1, k2, -⟩ := run_no_timers steps _ a
      exact ⟨k1, t, ht, k2.trans b⟩

theorem ready_timers (p : Page) :
    (ready p).timers = p.timers ++ [⟨p.now + 5000, .fadeAlerts⟩] := rfl

theorem get?_fadeOut (doc : List Element) (sel : Selector) (i : Nat) :
    (fadeOut doc sel).get? i
      = (doc.get? i).map (fun e => if sel.selects e then { e with hidden := true } else e) := by
  simp [fadeOut]

theorem step_no_timers_dom (s : Step) (q : Page) (h : q.timers = [])
    (hs : ∀ i e, s ≠ Step.insert i e) : (s.apply q).dom = q.dom := by
  cases s with
  | elapse ms =>
    obtain ⟨-, -, -, -, -, h6⟩ := fireDue_spec { q with now := q.now + ms }
    simp only at h6
    simp only [Step.apply, elapse]
    rw [h6, h]
    rfl
  | insert i e => exact absurd rfl (hs i e)
  | click i user =>
    obtain ⟨n, hn⟩ := click_page user q i
    simp only [Step.apply, hn]

theorem run_no_timers_dom (steps : List Step) (q : Page) (h : q.timers = [])
    (hs : ∀ s ∈ steps, ∀ i e, s ≠ Step.insert i e) : (run steps q).dom = q.dom := by
  induction steps generalizing q with
  | nil => rfl
  | cons s steps ih =>
    have h1 := ((step_single_timer s q ⟨0, .fadeAlerts⟩ []).2 h).1
    rw [run_cons, ih (s.apply q) h1 (fun s' hs' => hs s' (List.mem_cons_of_mem _ hs')),
      step_no_timers_dom s q h (hs s (List.mem_cons_self _ _))]

theorem get?_insert_track (l : List Element) (i j : Nat) (e : Element) :
    (l.take j ++ e :: l.drop j).get? (if min j l.length ≤ i then i + 1 else i) = l.get? i := by
  have hlen : (l.take j).length = min j l.length := List.length_take j l
  simp only [List.get?_eq_getElem?]
  split
  · rw [List.getElem?_append_right (by omega), hlen]
    have : i + 1 - min j l.length = (i - min j l.length) + 1 := by omega
    rw [this, List.getElem?_cons_succ, List.getElem?_drop]
    by_cases hj : j ≤ l.length
    · congr 1; omega
    · rw [List.getElem?_eq_none (by omega), List.getElem?_eq_none (by omega)]
  · rw [List.getElem?_append_left (by omega), List.getElem?_take_of_lt (by omega)]

theorem get?_fadeOut_iterate (n : Nat) (doc : List Element) (sel : Selector) (i : Nat)
    (el : Element) (h : doc.get? i = some el) :
    ∃ el', ((fun d => fadeOut d sel)^[n] doc).get? i = some el'
      ∧ el'.clickHandlers = el.clickHandlers ∧ el'.classes = el.classes
      ∧ el'.attrs = el.attrs := by
  induction n with
  | zero => exact ⟨el, h, rfl, rfl, rfl⟩
  | succ n ih =>
    obtain ⟨el1, h1, a, b, c⟩ := ih
    rw [Function.iterate_succ_apply', get?_fadeOut, h1]
    by_cases hs : sel.selects el1 = true
    · exact ⟨{ el1 with hidden := true }, by simp [hs], a, b, c⟩
    · exact ⟨el1, by simp [hs], a, b, c⟩

/-- A step keeps every element of the document, at its tracked position, with
its listeners, classes and attributes. -/
theorem step_track (s : Step) (q : Page) (i : Nat) (el : Element)
    (h : q.dom.get? i = some el) :
    ∃ el', (s.apply q).dom.get? (s.track q i) = some el'
      ∧ el'.clickHandlers = el.clickHandlers ∧ el'.classes = el.classes
      ∧ el'.attrs = el.attrs := by
  cases s with
  | elapse ms =>
    obtain ⟨-, -, -, -, -, h6⟩ := fireDue_spec { q with now := q.now + ms }
    simp only at h6
    simp only [Step.apply, elapse, Step.track]
    rw [h6]
    exact get?_fadeOut_iterate _ _ _ _ _ h
  | insert j e =>
    simp only [Step.apply, Step.track]
    rw [get?_insert_track]
    exact ⟨el, h, rfl, rfl, rfl⟩
  | click j user =>
    obtain ⟨n, hn⟩ := click_page user q j
    simp only [Step.apply, Step.track, hn]
    exact ⟨el, h, rfl, rfl, rfl⟩

theorem run_track (steps : List Step) (q : Page) (i : Nat) (el : Element)
    (h : q.dom.get? i = some el) :
    ∃ el', (run steps q).dom.get? (track steps q i) = some el'
      ∧ el'.clickHandlers = el.clickHandlers ∧ el'.classes = el.classes
      ∧ el'.attrs = el.attrs := by
  induction steps generalizing q i el with
  | nil => exact ⟨el, h, rfl, rfl, rfl⟩
  | cons s steps ih =>
    obtain ⟨el1, h1, a, b, c⟩ := step_track s q i el h
    obtain ⟨el2, h2, a2, b2, c2⟩ := ih (s.apply q) (s.track q i) el1 h1
    exact ⟨el2, h2, a2.trans a, b2.trans b, c2.trans c⟩

theorem click_of_handlers (user : Nat → Bool) (q : Page) (k : Nat) (el : Element)
    (h : q.dom.get? k = some el) : click user q k = dispatch user q el.clickHandlers := by
  simp only [click, h]

/-! ## Lemmas on the platform model -/

theorem digitChar_isDigit : ∀ n, n < 10 → (Nat.digitChar n).isDigit = true := by decide

theorem twoDigit_eq : ∀ n, n < 100 →
    twoDigit n = [Nat.digitChar (n / 10), Nat.digitChar (n % 10)] := by decide

theorem toDigitsCore_isDigit (fuel n : Nat) (ds : List Char)
    (hds : ∀ c ∈ ds, c.isDigit = true) :
    ∀ c ∈ Nat.toDigitsCore 10 fuel n ds, c.isDigit = true := by
  induction fuel generalizing n ds with
  | zero => simpa [Nat.toDigitsCore] using hds
  | succ fuel ih =>
    have hd : (Nat.digitChar (n % 10)).isDigit = true :=
      digitChar_isDigit _ (Nat.mod_lt _ (by decide))
    have hcons : ∀ c ∈ Nat.digitChar (n % 10) :: ds, c.isDigit = true := by
      intro c hc
      rcases List.mem_cons.1 hc with rfl | hc
      · exact hd
      · exact hds c hc
    simp only [Nat.toDigitsCore]
    split
    · exact hcons
    · exact ih _ _ hcons

theorem toDigitsCore_ne_nil (fuel n : Nat) (ds : List Char) (hds : ds ≠ [] ∨ 0 < fuel) :
    Nat.toDigitsCore 10 fuel n ds ≠ [] := by
  induction fuel generalizing n ds with
  | zero =>
    rcases hds with h | h
    · simpa [Nat.toDigitsCore] using h
    · omega
  | succ fuel ih =>
    simp only [Nat.toDigitsCore]
    split
    · simp
    · exact ih _ _ (Or.inl (by simp))

theorem decimal_isDigit (n : Nat) : ∀ c ∈ decimal n, c.isDigit = true :=
  toDigitsCore_isDigit _ _ [] (by simp)

theorem decimal_ne_nil (n : Nat) : decimal n ≠ [] :=
  toDigitsCore_ne_nil _ _ [] (Or.inr (Nat.succ_pos _))

theorem civilFromDays_bounds (z : Int) :
    1 ≤ (civilFromDays z).2.1 ∧ (civilFromDays z).2.1 ≤ 12
      ∧ 1 ≤ (civilFromDays z).2.2 ∧ (civilFromDays z).2.2 ≤ 31 := by
  simp only [civilFromDays]
  have h0 : 0 ≤ (z + 719468) % 146097 := Int.emod_nonneg _ (by decide)
  have h1 : (z + 719468) % 146097 < 146097 := Int.emod_lt_of_pos _ (by decide)
  have hdoe : ((z + 719468) % 146097).toNat < 146097 := by omega
  generalize ((z + 719468) % 146097).toNat = doe at hdoe
  have hr1 : doe - min (doe / 36524) 3 * 36524 ≤ 36524 := by omega
  generalize doe - min (doe / 36524) 3 * 36524 = r1 at hr1
  have hr2 : r1 % 1461 < 1461 := Nat.mod_lt _ (by decide)
  generalize r1 % 1461 = r2 at hr2
  have hdoy : r2 - min (r2 / 365) 3 * 365 ≤ 365 := by omega
  generalize r2 - min (r2 / 365) 3 * 365 = doy at hdoy
  have hmp : (5 * doy + 2) / 153 ≤ 11 := by omega
  split <;> omega

theorem localFields_bounds (h : Host) (t : Int) :
    (localFields h t).day < 100 ∧ (localFields h t).month < 100
      ∧ (localFields h t).hour < 100 ∧ (localFields h t).minute < 100 := by
  have hb := civilFromDays_bounds ((t + h.tzOffsetMin * 60000) / msPerDay)
  have h0 : 0 ≤ (t + h.tzOffsetMin * 60000) % msPerDay := Int.emod_nonneg _ (by decide)
  have h1 : (t + h.tzOffsetMin * 60000) % msPerDay < msPerDay := Int.emod_lt_of_pos _ (by decide)
  simp only [msPerDay] at h0 h1 hb
  obtain ⟨-, hm, -, hd⟩ := hb
  simp only [localFields, msPerDay]
  refine ⟨by omega, by omega, ?_, ?_⟩
  · have : ((t + h.tzOffsetMin * 60000) % 86400000).toNat < 86400000 := by omega
    omega
  · omega

theorem lastDigits_length (k n : Nat) : (lastDigits k n).length = k := by
  induction k generalizing n with
  | zero => rfl
  | succ k ih => simp [lastDigits, ih]

theorem lastDigits_isDigit (k n : Nat) : ∀ c ∈ lastDigits k n, c.isDigit = true := by
  induction k generalizing n with
  | zero => simp [lastDigits]
  | succ k ih =>
    intro c hc
    simp only [lastDigits, List.mem_append, List.mem_singleton] at hc
    rcases hc with hc | rfl
    · exact ih _ c hc
    · exact digitChar_isDigit _ (Nat.mod_lt _ (by decide))

theorem trimTrailingZeros_self (ds : List Char) : trimTrailingZeros ds.length ds = ds := by
  simp [trimTrailingZeros, dropZeros]

/-- The runs of `chunk3` on a non-empty list: every run but the last has three
elements, the last has one to three, and the runs only hold elements of the list. -/
theorem chunk3_spec (l : List Char) (hl : l ≠ []) :
    (∀ g ∈ (chunk3 l).dropLast, g.length = 3)
      ∧ (∀ g ∈ chunk3 l, 1 ≤ g.length ∧ g.length ≤ 3 ∧ ∀ c ∈ g, c ∈ l)
      ∧ chunk3 l ≠ [] := by
  induction l using chunk3.induct with
  | case1 a b c d rest ih =>
    obtain ⟨ih1, ih2, ih3⟩ := ih (by simp)
    rw [chunk3]
    refine ⟨?_, ?_, by simp⟩
    · intro g hg
      rw [List.dropLast_cons_of_ne_nil ih3] at hg
      rcases List.mem_cons.1 hg with rfl | hg
      · rfl
      · exact ih1 g hg
    · intro g hg
      rcases List.mem_cons.1 hg with rfl | hg
      · refine ⟨by simp, by simp, ?_⟩
        intro x hx
        simp only [List.mem_cons, List.mem_singleton, List.not_mem_nil, or_false] at hx
        rcases hx with rfl | rfl | rfl <;> simp
      · obtain ⟨k1, k2, k3⟩ := ih2 g hg
        refine ⟨k1, k2, ?_⟩
        intro x hx
        have := k3 x hx
        simp only [List.mem_cons] at this ⊢
        tauto
  | case2 l hne =>
    have hc : chunk3 l = [l] := by
      unfold chunk3
      split
      · exact absurd rfl (fun h => hne _ _ _ _ _ h)
      · rfl
    rw [hc]
    refine ⟨by simp, ?_, by simp⟩
    intro g hg
    rw [List.mem_singleton] at hg
    subst hg
    refine ⟨?_, ?_, fun _ h => h⟩
    · cases g with
      | nil => exact absurd rfl hl
      | cons _ _ => simp
    · match g, hne with
      | [], _ => simp
      | [_], _ => simp
      | [_, _], _ => simp
      | [_, _, _], _ => simp
      | a :: b :: c :: d :: rest, hne => exact absurd rfl (hne a b c d rest)

theorem groupsOfThree_spec (ds : List Char) (hne : ds ≠ []) (hd : ∀ c ∈ ds, c.isDigit = true) :
    groupsOfThree ds ≠ []
      ∧ (∀ g ∈ groupsOfThree ds, 1 ≤ g.length ∧ g.length ≤ 3 ∧ ∀ c ∈ g, c.isDigit = true)
      ∧ (∀ g ∈ (groupsOfThree ds).tail, g.length = 3) := by
  have hr : ds.reverse ≠ [] := by simpa using hne
  obtain ⟨h1, h2, h3⟩ := chunk3_spec ds.reverse hr
  refine ⟨by simpa [groupsOfThree] using h3, ?_, ?_⟩
  · intro g hg
    simp only [groupsOfThree, List.mem_reverse, List.mem_map] at hg
    obtain ⟨g0, hg0, rfl⟩ := hg
    obtain ⟨k1, k2, k3⟩ := h2 g0 hg0
    refine ⟨by simpa using k1, by simpa using k2, ?_⟩
    intro c hc
    exact hd c (by simpa using k3 c (by simpa using hc))
  · intro g hg
    simp only [groupsOfThree, List.tail_reverse, List.mem_reverse] at hg
    rw [← List.map_dropLast] at hg
    obtain ⟨g0, hg0, rfl⟩ := List.mem_map.1 hg
    simpa using h1 g0 hg0

theorem digitValue_lt (c : Char) (d : Nat) (hd : digitValue c = some d) : d < 10 := by
  simp only [digitValue] at hd
  split at hd
  · rename_i hc
    simp only [Option.some.injEq] at hd
    simp only [Char.isDigit, Bool.and_eq_true, decide_eq_true_eq] at hc
    have a1 : (48 : UInt32).toNat ≤ c.val.toNat := hc.1
    have a2 : c.val.toNat ≤ (57 : UInt32).toNat := hc.2
    have e1 : (48 : UInt32).toNat = 48 := rfl
    have e2 : (57 : UInt32).toNat = 57 := rfl
    have e3 : c.toNat = c.val.toNat := rfl
    omega
  · simp at hd

theorem readDigits_lt (n : Nat) (cs : List Char) (v : Nat) (rest : List Char)
    (h : readDigits n cs = some (v, rest)) : v < 10 ^ n := by
  induction n generalizing cs v rest with
  | zero =>
    simp only [readDigits, Option.some.injEq, Prod.mk.injEq] at h
    omega
  | succ n ih =>
    cases cs with
    | nil => simp [readDigits] at h
    | cons c cs =>
      simp only [readDigits] at h
      cases hd : digitValue c with
      | none => simp [hd] at h
      | some d =>
        cases hr : readDigits n cs with
        | none => simp [hd, hr] at h
        | some r =>
          obtain ⟨v1, rest1⟩ := r
          simp only [hd, hr, Option.some.injEq, Prod.mk.injEq] at h
          have hv := ih cs v1 rest1 hr
          have hdlt := digitValue_lt c d hd
          obtain ⟨h1, -⟩ := h
          rw [← h1, Nat.pow_succ]
          nlinarith [Nat.pos_pow_of_pos n (by decide : 0 < 10)]

theorem parseDatePart_bounds (cs : List Char) (y m d : Nat) (rest : List Char)
    (h : parseDatePart cs = some ((y, m, d), rest)) : y < 10000 ∧ m < 100 ∧ d < 100 := by
  unfold parseDatePart at h
  repeat' split at h
  all_goals simp only [Option.some.injEq, Prod.mk.injEq, reduceCtorEq] at h
  all_goals obtain ⟨⟨rfl, rfl, rfl⟩, rfl⟩ := h
  all_goals refine ⟨?_, ?_, ?_⟩
  all_goals first
    | exact readDigits_lt 4 _ _ _ (by assumption)
    | exact readDigits_lt 2 _ _ _ (by assumption)
    | decide

theorem parseTimePart_bounds (cs : List Char) (hh mm ss ms : Nat) (rest : List Char)
    (h : parseTimePart cs = some ((hh, mm, ss, ms), rest)) :
    hh < 100 ∧ mm < 100 ∧ ss < 100 ∧ ms < 1000 := by
  unfold parseTimePart at h
  repeat' split at h
  all_goals simp only [Option.some.injEq, Prod.mk.injEq, reduceCtorEq] at h
  all_goals obtain ⟨⟨rfl, rfl, rfl, rfl⟩, rfl⟩ := h
  all_goals refine ⟨?_, ?_, ?_, ?_⟩
  all_goals first
    | exact readDigits_lt 3 _ _ _ (by assumption)
    | exact readDigits_lt 2 _ _ _ (by assumption)
    | decide

theorem parseOffsetPart_bounds (cs : List Char) (o : Int)
    (h : parseOffsetPart cs = some (some o)) : -1440 < o ∧ o < 1440 := by
  unfold parseOffsetPart at h
  repeat' split at h
  all_goals simp only [Option.some.injEq, Prod.mk.injEq, reduceCtorEq] at h
  all_goals subst h
  all_goals first
    | decide
    | (rename_i hb; omega)

theorem parseIso_bounds (cs : List Char) (f : IsoDateTime) (h : parseIso cs = some f) :
    f.year < 10000 ∧ f.month < 100 ∧ f.day < 100
      ∧ (∀ hh mm ss ms, f.time = some (hh, mm, ss, ms) →
          hh < 100 ∧ mm < 100 ∧ ss < 100 ∧ ms < 1000)
      ∧ (∀ o, f.offset = some o → -1440 < o ∧ o < 1440) := by
  unfold parseIso at h
  split at h
  · simp at h
  · rename_i d hd
    simp only [Option.some.injEq] at h
    subst h
    obtain ⟨a, b, c⟩ := parseDatePart_bounds cs d.1 d.2.1 d.2.2 [] hd
    exact ⟨a, b, c, by simp, by simp⟩
  · rename_i d rest hd
    obtain ⟨a, b, c⟩ := parseDatePart_bounds cs d.1 d.2.1 d.2.2 _ hd
    split at h
    · simp at h
    · rename_i t rest2 ht
      split at h
      · simp at h
      · rename_i off hoff
        simp only [Option.some.injEq] at h
        subst h
        refine ⟨a, b, c, ?_, ?_⟩
        · intro hh mm ss ms e
          simp only [Option.some.injEq] at e
          subst e
          exact parseTimePart_bounds rest _ _ _ _ rest2 ht
        · intro o e
          simp only at e
          subst e
          exact parseOffsetPart_bounds rest2 o hoff
  · simp at h

theorem dayFromYear_bound (y : Nat) (hy : y < 10000) :
    -719528 ≤ dayFromYear y ∧ dayFromYear y ≤ 2932897 := by
  simp only [dayFromYear]
  omega

theorem daysBeforeMonth_le (y : Int) (m : Nat) : daysBeforeMonth y m ≤ 335 := by
  unfold daysBeforeMonth
  split <;> split <;> simp only <;> omega

theorem timeValue_bound (h : Host) (f : IsoDateTime)
    (hb : f.year < 10000 ∧ f.month < 100 ∧ f.day < 100
      ∧ (∀ hh mm ss ms, f.time = some (hh, mm, ss, ms) →
          hh < 100 ∧ mm < 100 ∧ ss < 100 ∧ ms < 1000)
      ∧ (∀ o, f.offset = some o → -1440 < o ∧ o < 1440)) :
    (f.timeValue h).natAbs ≤ 8640000000000000 := by
  obtain ⟨hy, hm, hd, ht, ho⟩ := hb
  obtain ⟨y1, y2⟩ := dayFromYear_bound f.year hy
  have hdm := daysBeforeMonth_le f.year f.month
  have hz := h.tz_bound
  simp only [IsoDateTime.timeValue, makeDay, makeTime, msPerDay]
  cases htime : f.time with
  | none =>
    simp only
    omega
  | some t =>
    obtain ⟨hh, mm, ss, ms⟩ := t
    obtain ⟨t1, t2, t3, t4⟩ := ht hh mm ss ms htime
    cases hoff : f.offset with
    | none =>
      simp only
      omega
    | some o =>
      obtain ⟨o1, o2⟩ := ho o hoff
      simp only
      omega

theorem dateNew_iso (h : Host) (s : String) (f : IsoDateTime)
    (hp : parseIso s.data = some f) (hl : f.legal = true) :
    Date.new h s = some (f.timeValue h) := by
  have hb := timeValue_bound h f (parseIso_bounds _ f hp)
  simp only [Date.new, Date.parse, hp, hl, if_true, timeClip, if_pos hb]

theorem timeValue_absolute (h1 h2 : Host) (f : IsoDateTime)
    (ha : f.time = none ∨ f.offset ≠ none) : f.timeValue h1 = f.timeValue h2 := by
  simp only [IsoDateTime.timeValue]
  cases htime : f.time with
  | none => rfl
  | some t =>
    cases hoff : f.offset with
    | none => simp [htime, hoff] at ha
    | some o => rfl

theorem timeValue_local (h1 h2 : Host) (f : IsoDateTime) (t : Nat × Nat × Nat × Nat)
    (ht : f.time = some t) (ho : f.offset = none) :
    f.timeValue h1 + h1.tzOffsetMin * 60000 = f.timeValue h2 + h2.tzOffsetMin * 60000 := by
  simp only [IsoDateTime.timeValue, ht, ho]
  omega

/-! ## The ready callback: tooltips, the alert timer, the delete confirmation -/

/-- C2: tooltip activation instantiates one widget per element matching
`[data-bs-toggle="tooltip"]`, in document order: the widget list has the length
of the match list, its `i`-th widget is bound to the `i`-th match, the bound
elements form a sublist of the document, every element has as many widgets as
it has matching occurrences (none when it does not match), and these widgets
are exactly what the ready callback adds to the page. -/
theorem tooltip_activation_one_widget_per_match (p : Page) :
    (tooltipActivation p.dom).length = (querySelectorAll p.dom tooltipSelector).length
      ∧ (∀ i, ((tooltipActivation p.dom).get? i).map Tooltip.element
            = (querySelectorAll p.dom tooltipSelector).get? i)
      ∧ List.Sublist ((tooltipActivation p.dom).map Tooltip.element) p.dom
      ∧ (∀ e, (tooltipActivation p.dom).count (Tooltip.mk e)
            = if tooltipSelector.selects e then p.dom.count e else 0)
      ∧ (ready p).tooltips = p.tooltips ++ tooltipActivation p.dom := by
  refine ⟨by simp [tooltipActivation], ?_, ?_, ?_, rfl⟩
  · intro i
    simp only [tooltipActivation, List.get?_eq_getElem?, List.getElem?_map, Option.map_map]
    cases (querySelectorAll p.dom tooltipSelector)[i]? <;> rfl
  · simp only [tooltipActivation, List.map_map]
    have : (Tooltip.element ∘ fun tooltipTriggerEl => Tooltip.mk tooltipTriggerEl) = id := rfl
    rw [this, List.map_id]
    exact List.filter_sublist _
  · intro e
    have hinj : Function.Injective (fun tooltipTriggerEl => Tooltip.mk tooltipTriggerEl) := by
      intro a b h
      simpa using h
    simp only [tooltipActivation]
    rw [List.count_map_of_injective _ _ hinj]
    simp only [querySelectorAll]
    by_cases h : tooltipSelector.selects e = true
    · rw [List.count_filter h]
      simp [h]
    · simp only [h, Bool.false_eq_true, if_false]
      rw [List.count_eq_zero]
      intro hmem
      exact h (List.mem_filter.1 hmem).2

/-- C1: the click handler asks the confirmation prompt once and calls
`preventDefault` exactly when the answer is no, leaving the event untouched
when the answer is yes; and a click, at any later time, on an element that
carried the class `confirm-delete` when the ready callback ran shows one prompt
and ends with the default action prevented if and only if the prompt was
declined. -/
theorem confirm_delete_gate (user : Nat → Bool) (p : Page) (i : Nat) (el : Element)
    (steps : List Step)
    (hel : p.dom.get? i = some el) (hcls : confirmDeleteSelector.selects el = true)
    (hnew : el.clickHandlers = []) :
    (∀ (q : Page) (e : Event),
        (confirmDeleteHandler user q e).1 = { q with prompts := q.prompts ++ [confirmMessage] }
        ∧ (confirmDeleteHandler user q e).2
            = if user q.prompts.length then e else e.preventDefault)
      ∧ (click user (run steps (ready p)) (track steps (ready p) i)).1
          = { run steps (ready p) with
              prompts := (run steps (ready p)).prompts ++ [confirmMessage] }
      ∧ (click user (run steps (ready p)) (track steps (ready p) i)).2.preventDefaultCalls
          = (if user (run steps (ready p)).prompts.length then 0 else 1)
      ∧ (click user (run steps (ready p)) (track steps (ready p) i)).2.defaultPrevented
          = !(user (run steps (ready p)).prompts.length) := by
  have hget : (ready p).dom.get? i
      = some { el with clickHandlers := [Handler.confirmDelete] } := by
    simp only [ready, setTimeout, onClick, List.get?_eq_getElem?, List.getElem?_map]
    rw [← List.get?_eq_getElem?, hel]
    simp [hcls, hnew]
  obtain ⟨el1, h1, hh, -, -⟩ := run_track steps (ready p) i _ hget
  have hclick : click user (run steps (ready p)) (track steps (ready p) i)
      = dispatch user (run steps (ready p)) [Handler.confirmDelete] := by
    rw [click_of_handlers user _ _ el1 h1, hh]
  rw [hclick, dispatch_confirmDelete]
  refine ⟨?_, rfl, ?_, ?_⟩
  · intro q e
    cases h : user q.prompts.length <;> simp [confirmDeleteHandler, confirm, h]
  · cases user (run steps (ready p)).prompts.length <;> rfl
  · cases user (run steps (ready p)).prompts.length <;> rfl

/-- Witness for C1: a page with one `confirm-delete` link, clicked after the
alert timer has run by a user who declines. -/
theorem confirm_delete_gate_witness :
    (click (fun _ => false)
        (run [Step.elapse 6000]
          (ready ⟨[⟨[], ["confirm-delete"], false, []⟩], 0, [], [], [], []⟩))
        (track [Step.elapse 6000]
          (ready ⟨[⟨[], ["confirm-delete"], false, []⟩], 0, [], [], [], []⟩) 0)).2.defaultPrevented
      = true :=
  (confirm_delete_gate (fun _ => false)
    ⟨[⟨[], ["confirm-delete"], false, []⟩], 0, [], [], [], []⟩ 0
    ⟨[], ["confirm-delete"], false, []⟩ [Step.elapse 6000] rfl (by decide) rfl).2.2.2

/-- C3: every run of the ready callback adds one pending timer, due 5000 ms
later; no later step schedules or cancels a timer, so after any steps the timer
is either still pending or has fired once, no earlier than its due time; when
it fires it hides the elements that have the class `alert` at that moment and
removes none; and once no timer is pending, an element inserted later stays in
the document exactly as inserted: later steps leave every element as it is,
and steps other than insertions leave the document unchanged. -/
theorem alert_timer_fires_once (p : Page) :
    (ready p).timers = p.timers ++ [⟨p.now + 5000, .fadeAlerts⟩]
      ∧ (∀ steps, p.timers = [] →
          ((run steps (ready p)).timers = [⟨p.now + 5000, .fadeAlerts⟩]
              ∧ (run steps (ready p)).fired = p.fired)
            ∨ ((run steps (ready p)).timers = []
              ∧ ∃ t, p.now + 5000 ≤ t
                ∧ (run steps (ready p)).fired = p.fired ++ [(t, ⟨p.now + 5000, .fadeAlerts⟩)]))
      ∧ (∀ (q : Page) (d ms : Nat), q.timers = [⟨d, .fadeAlerts⟩] →
          (q.now + ms < d → (elapse q ms).dom = q.dom ∧ (elapse q ms).timers = q.timers)
            ∧ (d ≤ q.now + ms →
                (elapse q ms).dom = fadeOut q.dom alertSelector ∧ (elapse q ms).timers = []))
      ∧ (∀ (doc : List Element), (fadeOut doc alertSelector).length = doc.length
          ∧ ∀ i, (fadeOut doc alertSelector).get? i
              = (doc.get? i).map
                  (fun e => if alertSelector.selects e then { e with hidden := true } else e))
      ∧ (∀ (q : Page) (i : Nat) (e : Element) (steps : List Step), q.timers = [] →
          e ∈ ((Step.insert i e).apply q).dom
            ∧ List.Sublist ((Step.insert i e).apply q).dom
                (run steps ((Step.insert i e).apply q)).dom
            ∧ ((∀ s ∈ steps, ∀ j x, s ≠ Step.insert j x) →
                (run steps ((Step.insert i e).apply q)).dom = ((Step.insert i e).apply q).dom)) := by
  refine ⟨rfl, ?_, ?_, ?_, ?_⟩
  · intro steps hp
    have hT : (ready p).timers = [⟨p.now + 5000, .fadeAlerts⟩] := by
      rw [ready_timers, hp]; rfl
    exact run_single_timer steps (ready p) ⟨p.now + 5000, .fadeAlerts⟩ p.fired hT rfl
  · intro q d ms hq
    obtain ⟨h1, -, -, -, -, h6⟩ := fireDue_spec { q with now := q.now + ms }
    simp only at h1 h6
    simp only [elapse]
    rw [h1, h6, hq]
    constructor
    · intro hlt
      have : ¬ d ≤ q.now + ms := by omega
      simp [this]
    · intro hle
      simp [hle]
  · intro doc
    exact ⟨fadeOut_length doc _, get?_fadeOut doc _⟩
  · intro q i e steps hq
    refine ⟨by simp [Step.apply], ?_, ?_⟩
    · exact (run_no_timers steps ((Step.insert i e).apply q) hq).2.2
    · exact run_no_timers_dom steps ((Step.insert i e).apply q) hq

/-- Witness for C3: one alert, the timer fires after 5000 ms and hides it; an
alert inserted afterwards is still displayed one minute later. -/
theorem alert_timer_fires_once_witness :
    (elapse (ready ⟨[⟨[], ["alert"], false, []⟩], 0, [], [], [], []⟩) 5000).dom
        = [⟨[], ["alert"], true, []⟩]
      ∧ (⟨[], ["alert"], false, []⟩ : Element)
          ∈ (run [Step.elapse 60000]
              ((Step.insert 0 ⟨[], ["alert"], false, []⟩).apply
                (elapse (ready ⟨[⟨[], ["alert"], false, []⟩], 0, [], [], [], []⟩) 5000))).dom :=
  ⟨((alert_timer_fires_once ⟨[⟨[], ["alert"], false, []⟩], 0, [], [], [], []⟩).2.2.1
      (ready ⟨[⟨[], ["alert"], false, []⟩], 0, [], [], [], []⟩) 5000 5000 rfl).2 (by decide)
      |>.1.trans (by decide),
    ((alert_timer_fires_once ⟨[], 0, [], [], [], []⟩).2.2.2.2
      (elapse (ready ⟨[⟨[], ["alert"], false, []⟩], 0, [], [], [], []⟩) 5000) 0
      ⟨[], ["alert"], false, []⟩ [Step.elapse 60000] (by decide)).2.1.subset
      (by decide)⟩

/-- C8: on a document with no tooltip target, no alert and no `confirm-delete`
element the ready callback only schedules its timer: it instantiates no widget,
binds no click handler, leaves the document as it was, and the timer callback,
when it runs, changes nothing. -/
theorem ready_on_empty_matches (p : Page)
    (h1 : querySelectorAll p.dom tooltipSelector = [])
    (h2 : querySelectorAll p.dom alertSelector = [])
    (h3 : querySelectorAll p.dom confirmDeleteSelector = []) :
    tooltipActivation p.dom = []
      ∧ onClick p.dom confirmDeleteSelector .confirmDelete = p.dom
      ∧ ready p = { p with timers := p.timers ++ [⟨p.now + 5000, .fadeAlerts⟩] }
      ∧ Callback.run .fadeAlerts (ready p) = ready p
      ∧ (∀ ms, (elapse (ready p) ms).dom = p.dom
          ∧ (elapse (ready p) ms).tooltips = p.tooltips
          ∧ (elapse (ready p) ms).prompts = p.prompts) := by
  have ht : tooltipActivation p.dom = [] := by simp [tooltipActivation, h1]
  have ho := onClick_eq_self_of_no_match p.dom confirmDeleteSelector .confirmDelete h3
  have hf := fadeOut_eq_self_of_no_match p.dom alertSelector h2
  have hr : ready p = { p with timers := p.timers ++ [⟨p.now + 5000, .fadeAlerts⟩] } := by
    simp [ready, ht, setTimeout, ho]
  refine ⟨ht, ho, hr, ?_, ?_⟩
  · rw [hr]
    simp [Callback.run, hf]
  · intro ms
    obtain ⟨-, -, -, h4, h5, h6⟩ := fireDue_spec { ready p with now := (ready p).now + ms }
    simp only at h4 h5 h6
    simp only [elapse]
    rw [h4, h5, h6]
    refine ⟨?_, by rw [hr], by rw [hr]⟩
    have hd : (ready p).dom = p.dom := by rw [hr]
    rw [hd]
    generalize (List.filter _ _).length = n
    induction n with
    | zero => rfl
    | succ n ih => rw [Function.iterate_succ_apply', ih, hf]

/-- Witness for C8: a page whose only element is a plain paragraph. -/
theorem ready_on_empty_matches_witness :
    ready ⟨[⟨[], ["lead"], false, []⟩], 0, [], [], [], []⟩
      = ⟨[⟨[], ["lead"], false, []⟩], 0, [⟨5000, .fadeAlerts⟩], [], [], []⟩ :=
  (ready_on_empty_matches ⟨[⟨[], ["lead"], false, []⟩], 0, [], [], [], []⟩
    (by decide) (by decide) (by decide)).2.2.1

/-- C10 as stated fails: with a user who declines every prompt, a click on a
`confirm-delete` element present when the ready callback ran is prompted and
prevented, while a click on the same element inserted after the ready callback
ran shows no prompt and keeps its default action. -/
theorem late_confirm_delete_is_not_gated :
    ((click (fun _ => false)
          (ready ⟨[⟨[], ["confirm-delete"], false, []⟩], 0, [], [], [], []⟩) 0).1.prompts
        = [confirmMessage]
      ∧ (click (fun _ => false)
          (ready ⟨[⟨[], ["confirm-delete"], false, []⟩], 0, [], [], [], []⟩) 0).2.defaultPrevented
        = true)
    ∧ ((click (fun _ => false)
          ((Step.insert 0 ⟨[], ["confirm-delete"], false, []⟩).apply
            (ready ⟨[], 0, [], [], [], []⟩)) 0).1.prompts = []
      ∧ (click (fun _ => false)
          ((Step.insert 0 ⟨[], ["confirm-delete"], false, []⟩).apply
            (ready ⟨[], 0, [], [], [], []⟩)) 0).2.defaultPrevented = false) := by
  decide

/-- C10, amended: the delete-confirmation handler is bound to the elements that
carry the class `confirm-delete` when the ready callback runs, and to no
element added afterwards: at every later time an element that was present at
ready time carries the listeners it had, plus the handler if it matched, and an
element inserted after the ready callback ran carries exactly the listeners it
was inserted with, whether or not it has the class. -/
theorem confirm_delete_binds_ready_time_elements_only (p : Page) (steps later : List Step)
    (i : Nat) (e : Element) :
    (∀ j, (ready p).dom.get? j
        = (p.dom.get? j).map (fun el =>
            if confirmDeleteSelector.selects el
            then { el with clickHandlers := el.clickHandlers ++ [Handler.confirmDelete] }
            else el))
      ∧ (∀ j el, p.dom.get? j = some el →
          ∃ el1, (run steps (ready p)).dom.get? (track steps (ready p) j) = some el1
            ∧ el1.classes = el.classes
            ∧ el1.clickHandlers
                = if confirmDeleteSelector.selects el
                  then el.clickHandlers ++ [Handler.confirmDelete] else el.clickHandlers)
      ∧ ((Step.insert i e).apply (run steps (ready p))).dom.get?
            (min i (run steps (ready p)).dom.length) = some e
      ∧ (∃ e1, (run later ((Step.insert i e).apply (run steps (ready p)))).dom.get?
              (track later ((Step.insert i e).apply (run steps (ready p)))
                (min i (run steps (ready p)).dom.length)) = some e1
            ∧ e1.classes = e.classes ∧ e1.clickHandlers = e.clickHandlers) := by
  have hready : ∀ j, (ready p).dom.get? j
      = (p.dom.get? j).map (fun el =>
          if confirmDeleteSelector.selects el
          then { el with clickHandlers := el.clickHandlers ++ [Handler.confirmDelete] }
          else el) := by
    intro j
    simp [ready, setTimeout, onClick]
  have hg : ((Step.insert i e).apply (run steps (ready p))).dom.get?
      (min i (run steps (ready p)).dom.length) = some e :=
    get?_insert (run steps (ready p)).dom i e
  refine ⟨hready, ?_, hg, ?_⟩
  · intro j el hj
    have h0 := hready j
    rw [hj] at h0
    obtain ⟨el1, h1, hh, hc, -⟩ := run_track steps (ready p) j _ h0
    refine ⟨el1, h1, ?_, ?_⟩
    · rw [hc]
      simp only [Option.map_some']
      split <;> rfl
    · rw [hh]
      simp only [Option.map_some']
      split <;> rfl
  · obtain ⟨e1, h1, hh, hc, -⟩ := run_track later _ _ e hg
    exact ⟨e1, h1, hc, hh⟩

/-- Witness for C10 (amended): a `confirm-delete` link inserted into an empty
page after the ready callback ran still has no listener a minute later. -/
theorem confirm_delete_binds_ready_time_elements_only_witness :
    ∃ e1, (run [Step.elapse 60000] ((Step.insert 0 ⟨[], ["confirm-delete"], false, []⟩).apply
            (run [] (ready ⟨[], 0, [], [], [], []⟩)))).dom.get?
          (track [Step.elapse 60000] ((Step.insert 0 ⟨[], ["confirm-delete"], false, []⟩).apply
            (run [] (ready ⟨[], 0, [], [], [], []⟩))) (min 0 0)) = some e1
      ∧ e1.classes = ["confirm-delete"] ∧ e1.clickHandlers = [] :=
  (confirm_delete_binds_ready_time_elements_only ⟨[], 0, [], [], [], []⟩ [] [Step.elapse 60000] 0
    ⟨[], ["confirm-delete"], false, []⟩).2.2.2

/-! ## `formatDate` and `formatCurrency` -/

theorem formatDate_of_valid (h : Host) (s : String) (t : Int) (hd : Date.new h s = some t) :
    formatDate h s = .ok (ruDateTime (localFields h t)) := by
  have h1 : isStructurallyValidLanguageTag "ru-RU".data = true := by decide
  have h2 : formatDateOptions.valid = true := by decide
  have h3 : toDateOptions formatDateOptions = formatDateOptions := by decide
  show Date.toLocaleDateString h (Date.new h s) "ru-RU" formatDateOptions = _
  rw [hd]
  simp [Date.toLocaleDateString, h1, h2, h3]

theorem formatDate_of_invalid (h : Host) (s : String) (hd : Date.new h s = none) :
    formatDate h s = .ok "Invalid Date" := by
  show Date.toLocaleDateString h (Date.new h s) "ru-RU" formatDateOptions = _
  rw [hd]
  rfl

theorem formatCurrency_eq (h : Host) (x : FiniteNumber) :
    formatCurrency h x = .ok (ruCurrency 2 2 x) := by
  rfl

theorem ruDateTime_eq (f : DateFields) (hd : f.day < 100) (hm : f.month < 100)
    (hh : f.hour < 100) (hmin : f.minute < 100) :
    ruDateTime f
      = String.mk ([Nat.digitChar (f.day / 10), Nat.digitChar (f.day % 10), '.',
            Nat.digitChar (f.month / 10), Nat.digitChar (f.month % 10), '.']
          ++ decimal (yearOfEra f.year)
          ++ [',', ' ', Nat.digitChar (f.hour / 10), Nat.digitChar (f.hour % 10), ':',
            Nat.digitChar (f.minute / 10), Nat.digitChar (f.minute % 10)]) := by
  simp [ruDateTime, twoDigit_eq _ hd, twoDigit_eq _ hm, twoDigit_eq _ hh, twoDigit_eq _ hmin]

theorem dateNew_example (h : Host) :
    Date.new h "2024-03-05T14:30:00" = some (1709649000000 - h.tzOffsetMin * 60000) := by
  have hp : parseIso "2024-03-05T14:30:00".data
      = some ⟨2024, 3, 5, some (14, 30, 0, 0), none⟩ := by decide
  have hl : IsoDateTime.legal ⟨2024, 3, 5, some (14, 30, 0, 0), none⟩ = true := by decide
  have hday : makeDay (2024 : Nat) 3 5 * msPerDay + makeTime 14 30 0 0 = 1709649000000 := by
    decide
  have hb := h.tz_bound
  simp only [Date.new, Date.parse, hp, hl, if_true, IsoDateTime.timeValue, hday, timeClip]
  rw [if_pos (by omega)]

theorem localFields_example (h : Host) :
    localFields h (1709649000000 - h.tzOffsetMin * 60000) = ⟨2024, 3, 5, 14, 30⟩ := by
  have e : 1709649000000 - h.tzOffsetMin * 60000 + h.tzOffsetMin * 60000 = 1709649000000 := by
    omega
  simp only [localFields, e]
  decide

/-- C4: for every input that the `Date` constructor turns into a valid date,
`formatDate` returns the Russian rendering of the host's local date and time:
two digits of the day, a dot, two digits of the month, a dot, the digits of the
year, then `, ` and two digits of the hour, a colon and two digits of the
minute, with day 1–31, month 1–12, hour 0–23 and minute 0–59; on every host
`formatDate("2024-03-05T14:30:00")` is "05.03.2024, 14:30", which contains
"05.03.2024" and "14:30". -/
theorem formatDate_valid_rendering :
    (∀ (h : Host) (s : String) (t : Int), Date.new h s = some t →
        formatDate h s
            = .ok (String.mk
                ([Nat.digitChar ((localFields h t).day / 10),
                    Nat.digitChar ((localFields h t).day % 10), '.',
                    Nat.digitChar ((localFields h t).month / 10),
                    Nat.digitChar ((localFields h t).month % 10), '.']
                  ++ decimal (yearOfEra (localFields h t).year)
                  ++ [',', ' ', Nat.digitChar ((localFields h t).hour / 10),
                    Nat.digitChar ((localFields h t).hour % 10), ':',
                    Nat.digitChar ((localFields h t).minute / 10),
                    Nat.digitChar ((localFields h t).minute % 10)]))
          ∧ (1 ≤ (localFields h t).day ∧ (localFields h t).day ≤ 31)
          ∧ (1 ≤ (localFields h t).month ∧ (localFields h t).month ≤ 12)
          ∧ (localFields h t).hour ≤ 23 ∧ (localFields h t).minute ≤ 59
          ∧ decimal (yearOfEra (localFields h t).year) ≠ []
          ∧ (∀ c ∈ decimal (yearOfEra (localFields h t).year), c.isDigit = true))
      ∧ (∀ h : Host, ∃ out : String, formatDate h "2024-03-05T14:30:00" = .ok out
          ∧ out = "05.03.2024, 14:30"
          ∧ "05.03.2024".data <:+: out.data ∧ "14:30".data <:+: out.data) := by
  constructor
  · intro h s t hv
    obtain ⟨b1, b2, b3, b4⟩ := localFields_bounds h t
    refine ⟨?_, ?_, ?_, ?_, ?_, decimal_ne_nil _, decimal_isDigit _⟩
    · rw [formatDate_of_valid h s t hv, ruDateTime_eq _ b1 b2 b3 b4]
    · have hb := civilFromDays_bounds ((t + h.tzOffsetMin * 60000) / msPerDay)
      exact ⟨hb.2.2.1, hb.2.2.2⟩
    · have hb := civilFromDays_bounds ((t + h.tzOffsetMin * 60000) / msPerDay)
      exact ⟨hb.1, hb.2.1⟩
    · have h0 : 0 ≤ (t + h.tzOffsetMin * 60000) % msPerDay := Int.emod_nonneg _ (by decide)
      have h1 : (t + h.tzOffsetMin * 60000) % msPerDay < msPerDay :=
        Int.emod_lt_of_pos _ (by decide)
      simp only [msPerDay] at h0 h1
      simp only [localFields, msPerDay]
      have : ((t + h.tzOffsetMin * 60000) % 86400000).toNat < 86400000 := by omega
      omega
    · simp only [localFields]
      omega
  · intro h
    refine ⟨"05.03.2024, 14:30", ?_, rfl, ⟨[], ", 14:30".data, rfl⟩, ⟨"05.03.2024, ".data, [], rfl⟩⟩
    rw [formatDate_of_valid h _ _ (dateNew_example h), localFields_example]
    rfl

/-- Witness for C4: a date-only string on a host five hours west of UTC. -/
theorem formatDate_valid_rendering_witness :
    Date.new hostEST "2024-03-05" = some 1709596800000
      ∧ formatDate hostEST "2024-03-05" = .ok "04.03.2024, 19:00" :=
  ⟨by decide,
    ((formatDate_valid_rendering.1 hostEST "2024-03-05" 1709596800000 (by decide)).1).trans
      (by rfl)⟩

/-- C6: `formatDate` raises on no string: it always returns a string, the one
`toLocaleDateString` gives for the constructed Date, unchanged; when the input
is not turned into a valid date that string is "Invalid Date", as for
`formatDate("not a date")` on an engine whose parser rejects that text. -/
theorem formatDate_never_raises :
    (∀ (h : Host) (s : String), ∃ out : String, formatDate h s = .ok out)
      ∧ (∀ (h : Host) (s : String),
          formatDate h s = Date.toLocaleDateString h (Date.new h s) "ru-RU" formatDateOptions)
      ∧ (∀ (h : Host) (s : String), Date.new h s = none → formatDate h s = .ok "Invalid Date")
      ∧ (∀ h : Host, h.legacyParse "not a date" = none →
          formatDate h "not a date" = .ok "Invalid Date") := by
  refine ⟨?_, fun _ _ => rfl, formatDate_of_invalid, ?_⟩
  · intro h s
    cases hd : Date.new h s with
    | none => exact ⟨_, formatDate_of_invalid h s hd⟩
    | some t => exact ⟨_, formatDate_of_valid h s t hd⟩
  · intro h hl
    apply formatDate_of_invalid
    have hp : parseIso "not a date".data = none := by decide
    simp only [Date.new, Date.parse, hp, hl]

/-- Witness for C6: the text "not a date" on the sample host. -/
theorem formatDate_never_raises_witness :
    formatDate hostUTC "not a date" = .ok "Invalid Date" :=
  formatDate_never_raises.2.2.2 hostUTC rfl

/-- C7 as stated fails: for the date-only string "2024-03-05" and for the
string "2024-03-05T00:00:00Z", two hosts that differ in nothing but their time
zone get different strings from `formatDate`. -/
theorem formatDate_depends_on_time_zone :
    formatDate hostUTC "2024-03-05" = .ok "05.03.2024, 00:00"
      ∧ formatDate hostEST "2024-03-05" = .ok "04.03.2024, 19:00"
      ∧ formatDate hostUTC "2024-03-05" ≠ formatDate hostEST "2024-03-05"
      ∧ formatDate hostUTC "2024-03-05T00:00:00Z" ≠ formatDate hostEST "2024-03-05T00:00:00Z"
      ∧ hostEST = { hostUTC with tzOffsetMin := -300, tz_bound := by decide } := by
  have a : formatDate hostUTC "2024-03-05" = .ok "05.03.2024, 00:00" := by rfl
  have b : formatDate hostEST "2024-03-05" = .ok "04.03.2024, 19:00" := by rfl
  have c : formatDate hostUTC "2024-03-05T00:00:00Z" = .ok "05.03.2024, 00:00" := by rfl
  have d : formatDate hostEST "2024-03-05T00:00:00Z" = .ok "04.03.2024, 19:00" := by rfl
  refine ⟨a, b, ?_, ?_, rfl⟩
  · rw [a, b]
    simp
  · rw [c, d]
    simp

/-- C7, amended: the string `formatDate` returns is determined by the Date
constructed from its argument and by the host's time zone, and by no other
state of the host. For an ISO string that denotes an absolute instant (a
date-only string, or a date-time with `Z` or an offset) the Date is the same
instant on every host and the string is the Russian rendering of the local date
and time of that instant in the host's zone, that is, of the UTC fields of the
instant shifted by the zone's offset; for an ISO date-time without `Z` or
offset the string is the same in every time zone. -/
theorem formatDate_renders_instant_in_host_zone :
    (∀ (h1 h2 : Host) (s : String), Date.new h1 s = Date.new h2 s →
        h1.tzOffsetMin = h2.tzOffsetMin → formatDate h1 s = formatDate h2 s)
      ∧ (∀ (s : String) (f : IsoDateTime), parseIso s.data = some f → f.legal = true →
          (f.time = none ∨ f.offset ≠ none) →
          ∀ h h0 : Host, Date.new h s = some (f.timeValue h0)
            ∧ formatDate h s = .ok (ruDateTime (localFields h (f.timeValue h0)))
            ∧ localFields h (f.timeValue h0)
                = localFields hostUTC (f.timeValue h0 + h.tzOffsetMin * 60000))
      ∧ (∀ (s : String) (f : IsoDateTime), parseIso s.data = some f → f.legal = true →
          f.time ≠ none → f.offset = none →
          ∀ h1 h2 : Host, formatDate h1 s = formatDate h2 s) := by
  refine ⟨?_, ?_, ?_⟩
  · intro h1 h2 s hnew hz
    cases hd : Date.new h2 s with
    | none =>
      rw [formatDate_of_invalid h1 s (hnew.trans hd), formatDate_of_invalid h2 s hd]
    | some t =>
      rw [formatDate_of_valid h1 s t (hnew.trans hd), formatDate_of_valid h2 s t hd]
      simp only [localFields, hz]
  · intro s f hp hl ha h h0
    have hnew : Date.new h s = some (f.timeValue h0) := by
      rw [dateNew_iso h s f hp hl, timeValue_absolute h h0 f ha]
    refine ⟨hnew, formatDate_of_valid h s _ hnew, ?_⟩
    simp [localFields, hostUTC]
  · intro s f hp hl ht ho h1 h2
    obtain ⟨t, ht⟩ := Option.ne_none_iff_exists'.1 ht
    rw [formatDate_of_valid h1 s _ (dateNew_iso h1 s f hp hl),
      formatDate_of_valid h2 s _ (dateNew_iso h2 s f hp hl)]
    simp only [localFields, timeValue_local h1 h2 f t ht ho]

/-- Witness for C7 (amended): the date-only string "2024-03-05" is midnight UTC
on every host and is rendered five hours earlier on a host five hours west of
UTC; the string "2024-03-05T14:30:00" is rendered alike on both hosts. -/
theorem formatDate_renders_instant_in_host_zone_witness :
    formatDate hostEST "2024-03-05" = .ok "04.03.2024, 19:00"
      ∧ formatDate hostUTC "2024-03-05T14:30:00" = formatDate hostEST "2024-03-05T14:30:00" :=
  ⟨(formatDate_renders_instant_in_host_zone.2.1 "2024-03-05" ⟨2024, 3, 5, none, none⟩
      (by decide) (by decide) (Or.inl rfl) hostEST hostUTC).2.1.trans (by rfl),
    formatDate_renders_instant_in_host_zone.2.2 "2024-03-05T14:30:00"
      ⟨2024, 3, 5, some (14, 30, 0, 0), none⟩ (by decide) (by decide) (by decide) rfl
      hostUTC hostEST⟩

theorem ruCurrency_two (x : FiniteNumber) :
    ruCurrency 2 2 x
      = String.mk ((if x.negative then ['-'] else [])
          ++ List.intercalate [nbsp] (groupsOfThree (decimal (scaledRound x 2 / 100)))
          ++ [',', Nat.digitChar (scaledRound x 2 / 10 % 10),
              Nat.digitChar (scaledRound x 2 % 10), nbsp, '₽']) := by
  have hl : lastDigits 2 (scaledRound x 2)
      = [Nat.digitChar (scaledRound x 2 / 10 % 10), Nat.digitChar (scaledRound x 2 % 10)] := by
    simp [lastDigits]
  have ht : trimTrailingZeros 2 (lastDigits 2 (scaledRound x 2))
      = lastDigits 2 (scaledRound x 2) := by
    have := trimTrailingZeros_self (lastDigits 2 (scaledRound x 2))
    rwa [lastDigits_length] at this
  rw [hl] at ht
  simp only [ruCurrency, hl, ht]
  simp

/-- C5: for every finite amount `formatCurrency` returns a Russian ruble
string: a minus sign for a negative amount, the integer part in groups of
digits separated by the locale's grouping space (the first group of one to
three digits, every further group of exactly three), a decimal comma, exactly
two fraction digits, a no-break space and the sign `₽`; and
`formatCurrency(1234.5)` is "1 234,50 ₽" with the locale's no-break spaces. -/
theorem formatCurrency_ruble_rendering :
    (∀ (h : Host) (x : FiniteNumber), ∃ (groups : List (List Char)) (d1 d2 : Char),
        formatCurrency h x
            = .ok (String.mk ((if x.negative then ['-'] else [])
                ++ List.intercalate [nbsp] groups ++ [',', d1, d2, nbsp, '₽']))
          ∧ d1.isDigit = true ∧ d2.isDigit = true
          ∧ groups ≠ []
          ∧ (∀ g ∈ groups, 1 ≤ g.length ∧ g.length ≤ 3 ∧ ∀ c ∈ g, c.isDigit = true)
          ∧ (∀ g ∈ groups.tail, g.length = 3))
      ∧ (∀ h : Host, ∃ out : String, formatCurrency h amount1234_5 = .ok out
          ∧ out = String.mk ['1', nbsp, '2', '3', '4', ',', '5', '0', nbsp, '₽']
          ∧ ['1', nbsp, '2', '3', '4', ',', '5', '0'] <:+: out.data
          ∧ '₽' ∈ out.data) := by
  constructor
  · intro h x
    obtain ⟨g1, g2, g3⟩ := groupsOfThree_spec (decimal (scaledRound x 2 / 100))
      (decimal_ne_nil _) (decimal_isDigit _)
    refine ⟨groupsOfThree (decimal (scaledRound x 2 / 100)),
      Nat.digitChar (scaledRound x 2 / 10 % 10), Nat.digitChar (scaledRound x 2 % 10),
      ?_, ?_, ?_, g1, g2, g3⟩
    · rw [formatCurrency_eq, ruCurrency_two]
    · exact digitChar_isDigit _ (Nat.mod_lt _ (by decide))
    · exact digitChar_isDigit _ (Nat.mod_lt _ (by decide))
  · intro h
    refine ⟨_, formatCurrency_eq h amount1234_5, by decide, ?_, ?_⟩
    · exact ⟨[], [nbsp, '₽'], by decide⟩
    · decide

/-- C9: for every finite amount `formatCurrency` returns a string and raises
nothing, and `formatCurrency(0)` is "0,00 ₽" (with a no-break space before the
ruble sign), which contains "0,00" and the ruble sign. -/
theorem formatCurrency_never_raises :
    (∀ (h : Host) (x : FiniteNumber), ∃ out : String, formatCurrency h x = .ok out)
      ∧ (∀ h : Host, ∃ out : String, formatCurrency h amountZero = .ok out
          ∧ out = String.mk ['0', ',', '0', '0', nbsp, '₽']
          ∧ "0,00".data <:+: out.data ∧ '₽' ∈ out.data) := by
  constructor
  · intro h x
    exact ⟨_, formatCurrency_eq h x⟩
  · intro h
    refine ⟨_, formatCurrency_eq h amountZero, by decide, ?_, ?_⟩
    · exact ⟨[], [nbsp, '₽'], by decide⟩
    · decide

end ElectroChain
